import Mathlib

/-!
Verification of the vocabulary lifecycle and spaced-repetition engine of the
learndanish client.  The definitions below are a shallow embedding of the
TypeScript source: JavaScript numbers are modelled as rationals, `Date`
values as integer milliseconds since the Unix epoch, and the React state
plus its localStorage mirror as an explicit record holding both the
in-memory and the persisted collection.
-/

namespace LearnDanish

/- Data model, from src/src/types/vocabulary.ts. -/

inductive ProficiencyLevel where
  | new
  | learning
  | familiar
  | mastered
deriving DecidableEq

/-- SRSData from src/src/types/vocabulary.ts. -/
structure SRSData where
  easeFactor : ℚ
  interval : ℚ
  repetitions : ℤ
  nextReviewDate : ℤ
  lastQuality : Option ℚ := none
deriving DecidableEq

/-- SRSCalculationResult from src/src/utils/srsAlgorithm.ts. -/
structure SRSCalculationResult where
  easeFactor : ℚ
  interval : ℚ
  repetitions : ℤ
  nextReviewDate : ℤ
deriving DecidableEq

/-- Milliseconds in one day; the source writes 24 * 60 * 60 * 1000. -/
def msPerDay : ℤ := 24 * 60 * 60 * 1000

/-- JavaScript Math.round: rounds half-way cases toward positive infinity. -/
def jsRound (q : ℚ) : ℤ := ⌊q + 1 / 2⌋

/-- The TypeScript spread of an SRSCalculationResult back into an SRSData
record, attaching the given lastQuality field. -/
def SRSCalculationResult.toSRSData (r : SRSCalculationResult)
    (lastQuality : Option ℚ) : SRSData :=
  { easeFactor := r.easeFactor
    interval := r.interval
    repetitions := r.repetitions
    nextReviewDate := r.nextReviewDate
    lastQuality := lastQuality }

/-- calculateNextReview from src/src/utils/srsAlgorithm.ts.  The source sets
the next review date with Date.setDate (whole calendar days); this is
modelled as adding the interval, in whole days of milliseconds, to the
injected clock value. -/
def calculateNextReview (quality : ℚ) (currentSRS : SRSData) (now : ℤ) :
    SRSCalculationResult :=
  if quality < 3 then
    { easeFactor := max 1.3 (currentSRS.easeFactor - 0.2)
      interval := 1
      repetitions := 0
      nextReviewDate := now + 1 * msPerDay }
  else
    let easeFactor :=
      max 1.3 (currentSRS.easeFactor +
        (0.1 - (5 - quality) * (0.08 + (5 - quality) * 0.02)))
    let interval : ℚ :=
      if currentSRS.repetitions = 0 then 1
      else if currentSRS.repetitions = 1 then 6
      else (jsRound (currentSRS.interval * easeFactor) : ℚ)
    { easeFactor := easeFactor
      interval := interval
      repetitions := currentSRS.repetitions + 1
      nextReviewDate := now + ⌊interval⌋ * msPerDay }

/-- mapQualityRating from src/src/utils/srsAlgorithm.ts. -/
inductive QualityRating where
  | again
  | hard
  | good
  | easy
deriving DecidableEq

def mapQualityRating : QualityRating → ℚ
  | .again => 0
  | .hard => 3
  | .good => 4
  | .easy => 5

/-- calculateProficiencyLevel from src/src/utils/srsAlgorithm.ts. -/
def calculateProficiencyLevel (srsData : SRSData) : ProficiencyLevel :=
  if srsData.repetitions = 0 then .new
  else if srsData.repetitions < 3 then .learning
  else if srsData.repetitions < 6 then .familiar
  else .mastered

/-- Iterated application of calculateNextReview, feeding each result back as
the current state the way updateWordWithReview does (spreading the result
and attaching lastQuality); returns every intermediate result. -/
def runReviews (currentSRS : SRSData) (now : ℤ) : List ℚ → List SRSCalculationResult
  | [] => []
  | q :: qs =>
    let r := calculateNextReview q currentSRS now
    r :: runReviews (r.toSRSData (some q)) now qs

/- Vocabulary store, from src/src/types/vocabulary.ts and the
useVocabularyTracker hook. -/

/-- VocabularyWord from src/src/types/vocabulary.ts.  The optional
display-only fields relatedWords, topicTags, exampleSentences, culturalNotes
and grammaticalForms are carried unchanged by every operation modelled here
and are omitted. -/
structure VocabularyWord where
  id : String
  danishWord : String
  englishTranslation : String
  context : String
  partOfSpeech : Option String := none
  firstEncountered : ℤ
  lastPracticed : ℤ
  practiceCount : ℤ
  proficiencyLevel : ProficiencyLevel
  srsData : SRSData
deriving DecidableEq

/-- The argument of addWord: Omit of VocabularyWord without id and srsData. -/
structure VocabularyCandidate where
  danishWord : String
  englishTranslation : String
  context : String
  partOfSpeech : Option String := none
  firstEncountered : ℤ
  lastPracticed : ℤ
  practiceCount : ℤ
  proficiencyLevel : ProficiencyLevel
deriving DecidableEq

/-- A Partial of VocabularyWord, as taken by updateWord: every present field
overrides the corresponding field of the word it is spread onto. -/
structure VocabUpdates where
  id : Option String := none
  danishWord : Option String := none
  englishTranslation : Option String := none
  context : Option String := none
  partOfSpeech : Option (Option String) := none
  firstEncountered : Option ℤ := none
  lastPracticed : Option ℤ := none
  practiceCount : Option ℤ := none
  proficiencyLevel : Option ProficiencyLevel := none
  srsData : Option SRSData := none
deriving DecidableEq

/-- The TypeScript object spread of a Partial over a word. -/
def applyUpdates (w : VocabularyWord) (u : VocabUpdates) : VocabularyWord :=
  { id := u.id.getD w.id
    danishWord := u.danishWord.getD w.danishWord
    englishTranslation := u.englishTranslation.getD w.englishTranslation
    context := u.context.getD w.context
    partOfSpeech := u.partOfSpeech.getD w.partOfSpeech
    firstEncountered := u.firstEncountered.getD w.firstEncountered
    lastPracticed := u.lastPracticed.getD w.lastPracticed
    practiceCount := u.practiceCount.getD w.practiceCount
    proficiencyLevel := u.proficiencyLevel.getD w.proficiencyLevel
    srsData := u.srsData.getD w.srsData }

/-- A Partial holding every field of the given word, modelling the calls
that spread a whole updated word into updateWord. -/
def fullUpdates (w : VocabularyWord) : VocabUpdates :=
  { id := some w.id
    danishWord := some w.danishWord
    englishTranslation := some w.englishTranslation
    context := some w.context
    partOfSpeech := some w.partOfSpeech
    firstEncountered := some w.firstEncountered
    lastPracticed := some w.lastPracticed
    practiceCount := some w.practiceCount
    proficiencyLevel := some w.proficiencyLevel
    srsData := some w.srsData }

/-- The tracker state: the React vocabulary state together with the
collection last written through StorageManager.setItem under the
VOCABULARY key. -/
structure TrackerState where
  vocabulary : List VocabularyWord
  stored : List VocabularyWord
deriving DecidableEq

/-- createInitialSRSData from the useVocabularyTracker hook. -/
def createInitialSRSData (now : ℤ) : SRSData :=
  { easeFactor := 2.5
    interval := 1
    repetitions := 0
    nextReviewDate := now + 24 * 60 * 60 * 1000 }

/-- String.prototype.toLowerCase, modelled character-wise.  (The core
String.toLower is defined through a byte-position loop that the kernel
cannot evaluate; this structural version maps Char.toLower over the
character list instead.) -/
def jsToLowerCase (s : String) : String :=
  String.mk (s.data.map Char.toLower)

/-- Helper for generateVocabularyId: the regex replace of every maximal run
of whitespace by a single underscore.  The boolean flag records whether the
previous character was whitespace. -/
def collapseWsAux : List Char → Bool → List Char
  | [], _ => []
  | c :: rest, prevWs =>
    if c.isWhitespace then
      (if prevWs then [] else ['_']) ++ collapseWsAux rest true
    else c :: collapseWsAux rest false

/-- generateVocabularyId from src/src/utils/deepgramTTS.ts; the Date.now()
component is the injected clock value. -/
def generateVocabularyId (danishWord : String) (now : ℤ) : String :=
  "vocab_" ++ String.mk (collapseWsAux (jsToLowerCase danishWord).data false)
    ++ "_" ++ toString now

/-- The newWord object that addWord builds from its candidate argument. -/
def mkNewWord (word : VocabularyCandidate) (now : ℤ) : VocabularyWord :=
  { id := generateVocabularyId word.danishWord now
    danishWord := word.danishWord
    englishTranslation := word.englishTranslation
    context := word.context
    partOfSpeech := word.partOfSpeech
    firstEncountered := word.firstEncountered
    lastPracticed := word.lastPracticed
    practiceCount := word.practiceCount
    proficiencyLevel := word.proficiencyLevel
    srsData := createInitialSRSData now }

/-- addWord from the useVocabularyTracker hook.  The duplicate check is
case-insensitive on danishWord; on a duplicate the matching item has its
practiceCount incremented and lastPracticed refreshed but, unlike every
other mutation, StorageManager.setItem is not called, so only the vocabulary
component changes; on a new word the appended collection is persisted. -/
def addWord (tr : TrackerState) (word : VocabularyCandidate) (now : ℤ) :
    TrackerState :=
  let newWord : VocabularyWord := mkNewWord word now
  match tr.vocabulary.find?
      (fun w => jsToLowerCase w.danishWord == jsToLowerCase word.danishWord) with
  | some w0 =>
    { tr with
      vocabulary := tr.vocabulary.map (fun w =>
        if w.id = w0.id then
          { w with practiceCount := w.practiceCount + 1, lastPracticed := now }
        else w) }
  | none =>
    let updated := tr.vocabulary ++ [newWord]
    { vocabulary := updated, stored := updated }

/-- A sequence of addWord calls, each with its own clock value. -/
def addWords (tr : TrackerState) : List (VocabularyCandidate × ℤ) → TrackerState
  | [] => tr
  | (c, t) :: rest => addWords (addWord tr c t) rest

/-- updateWord from the useVocabularyTracker hook: merges the updates into
the matching item and persists the mapped collection unconditionally. -/
def updateWord (tr : TrackerState) (id : String) (updates : VocabUpdates) :
    TrackerState :=
  let updated := tr.vocabulary.map (fun w =>
    if w.id = id then applyUpdates w updates else w)
  { vocabulary := updated, stored := updated }

/-- deleteWord from the useVocabularyTracker hook. -/
def deleteWord (tr : TrackerState) (id : String) : TrackerState :=
  let updated := tr.vocabulary.filter (fun w => ¬ w.id = id)
  { vocabulary := updated, stored := updated }

/-- getWordsDueForReview from the useVocabularyTracker hook: a plain filter
on the next review date, with no sorting. -/
def getWordsDueForReview (vocabulary : List VocabularyWord) (now : ℤ) :
    List VocabularyWord :=
  vocabulary.filter (fun w => w.srsData.nextReviewDate ≤ now)

/-- The comparator of getDueWords in src/src/hooks/useSpacedRepetition.ts:
ascending next review time. -/
def dueOrder (a b : VocabularyWord) : Prop :=
  a.srsData.nextReviewDate ≤ b.srsData.nextReviewDate

instance : DecidableRel dueOrder := fun a b =>
  inferInstanceAs (Decidable (a.srsData.nextReviewDate ≤ b.srsData.nextReviewDate))

instance : IsTotal VocabularyWord dueOrder :=
  ⟨fun a b => Int.le_total a.srsData.nextReviewDate b.srsData.nextReviewDate⟩

instance : IsTrans VocabularyWord dueOrder :=
  ⟨fun _ _ _ hab hbc => Int.le_trans hab hbc⟩

/-- getDueWords from src/src/hooks/useSpacedRepetition.ts: filter by due
date, then the stable JavaScript sort on the ascending-time comparator,
modelled by insertion sort (also stable). -/
def getDueWords (vocabulary : List VocabularyWord) (now : ℤ) :
    List VocabularyWord :=
  (vocabulary.filter (fun w => w.srsData.nextReviewDate ≤ now)).insertionSort
    dueOrder

/-- getDueCount from src/src/hooks/useSpacedRepetition.ts. -/
def getDueCount (vocabulary : List VocabularyWord) (now : ℤ) : ℕ :=
  (getDueWords vocabulary now).length

/-- updateWordWithReview from src/src/hooks/useSpacedRepetition.ts.  The
proficiency classification is applied to the raw calculation result, which
TypeScript accepts structurally as an SRSData without lastQuality; the
coercion attaches none, and the classifier only reads repetitions. -/
def updateWordWithReview (word : VocabularyWord) (quality : ℚ) (now : ℤ) :
    VocabularyWord :=
  let newSRSData := calculateNextReview quality word.srsData now
  let newProficiencyLevel := calculateProficiencyLevel (newSRSData.toSRSData none)
  { word with
    lastPracticed := now
    practiceCount := word.practiceCount + 1
    proficiencyLevel := newProficiencyLevel
    srsData := newSRSData.toSRSData (some quality) }

/-- SRSReview from src/src/types/vocabulary.ts. -/
structure SRSReview where
  wordId : String
  quality : ℚ
deriving DecidableEq

/-- The Partial that reviewWord in useSpacedRepetition.ts passes to
updateWord: the schedule state is recomputed from the hard-coded initial
state, not from the word, and practiceCount is written as 0. -/
def reviewWordUpdates (review : SRSReview) (now : ℤ) : VocabUpdates :=
  { lastPracticed := some now
    practiceCount := some 0
    srsData := some
      ((calculateNextReview review.quality
          { easeFactor := 2.5, interval := 1, repetitions := 0,
            nextReviewDate := now }
          now).toSRSData (some review.quality)) }

/-- reviewWord from useSpacedRepetition.ts, composed with the updateWord it
is handed by the caller. -/
def reviewWordApply (tr : TrackerState) (review : SRSReview) (now : ℤ) :
    TrackerState :=
  updateWord tr review.wordId (reviewWordUpdates review now)

/- Review session, from the FlashcardView component. -/

/-- The three review outcomes offered by the flashcard buttons. -/
inductive ReviewResult where
  | forgot
  | remembered
  | mastered
deriving DecidableEq

/-- ReviewStats from FlashcardView; startTime is only used for the elapsed
time display and is omitted. -/
structure ReviewStats where
  totalReviewed : ℕ
  forgotCount : ℕ
  rememberedCount : ℕ
  masteredCount : ℕ
deriving DecidableEq

/-- The computed-key bucket update of the stats object. -/
def bumpOutcome (stats : ReviewStats) : ReviewResult → ReviewStats
  | .forgot => { stats with forgotCount := stats.forgotCount + 1 }
  | .remembered => { stats with rememberedCount := stats.rememberedCount + 1 }
  | .mastered => { stats with masteredCount := stats.masteredCount + 1 }

/-- The component state of FlashcardView. -/
structure FlashcardState where
  currentIndex : ℕ
  reviewedWords : List String
  remainingWords : List VocabularyWord
  stats : ReviewStats
  showSummary : Bool
deriving DecidableEq

/-- The initial component state for a given vocabulary list. -/
def initFlashcards (vocabulary : List VocabularyWord) : FlashcardState :=
  { currentIndex := 0
    reviewedWords := []
    remainingWords := vocabulary
    stats := { totalReviewed := 0, forgotCount := 0, rememberedCount := 0,
               masteredCount := 0 }
    showSummary := false }

/-- The Set add on reviewedWords. -/
def addReviewed (ids : List String) (id : String) : List String :=
  if id ∈ ids then ids else ids ++ [id]

/-- The Partial that the mastered branch of handleReview passes to
onUpdateWord: proficiency forced to mastered, repetitions incremented, next
review a year away; practiceCount and lastPracticed are not among the
updated fields. -/
def masteredUpdates (w : VocabularyWord) (now : ℤ) : VocabUpdates :=
  { proficiencyLevel := some .mastered
    srsData := some
      { w.srsData with
        repetitions := w.srsData.repetitions + 1
        nextReviewDate := now + 365 * 24 * 60 * 60 * 1000 } }

/-- handleReview from FlashcardView, threading the vocabulary tracker that
onUpdateWord mutates.  An out-of-range current index returns unchanged, as
the undefined guard does. -/
def handleReview (s : FlashcardState) (tr : TrackerState)
    (result : ReviewResult) (now : ℤ) : FlashcardState × TrackerState :=
  match s.remainingWords.get? s.currentIndex with
  | none => (s, tr)
  | some currentWord =>
    let stats := bumpOutcome
      { s.stats with totalReviewed := s.stats.totalReviewed + 1 } result
    let reviewed := addReviewed s.reviewedWords currentWord.id
    match result with
    | .mastered =>
      let newRemaining := s.remainingWords.eraseIdx s.currentIndex
      let tr2 := updateWord tr currentWord.id (masteredUpdates currentWord now)
      if newRemaining.length = 0 then
        ({ s with remainingWords := newRemaining, stats := stats,
                  reviewedWords := reviewed, showSummary := true }, tr2)
      else if newRemaining.length ≤ s.currentIndex then
        ({ s with remainingWords := newRemaining,
                  currentIndex := newRemaining.length - 1, stats := stats,
                  reviewedWords := reviewed }, tr2)
      else
        ({ s with remainingWords := newRemaining, stats := stats,
                  reviewedWords := reviewed }, tr2)
    | _ =>
      let qualityNumber : ℚ := if result = .forgot then 0 else 3
      let updatedWord := updateWordWithReview currentWord qualityNumber now
      let tr2 := updateWord tr currentWord.id (fullUpdates updatedWord)
      if s.currentIndex < s.remainingWords.length - 1 then
        ({ s with currentIndex := s.currentIndex + 1, stats := stats,
                  reviewedWords := reviewed }, tr2)
      else
        ({ s with stats := stats, reviewedWords := reviewed,
                  showSummary := true }, tr2)

/-- handleSkip from FlashcardView. -/
def handleSkip (s : FlashcardState) : FlashcardState :=
  if s.currentIndex < s.remainingWords.length - 1 then
    { s with currentIndex := s.currentIndex + 1 }
  else
    { s with showSummary := true }

/-- One user action of a review session. -/
inductive SessionAction where
  | skip
  | review (result : ReviewResult)
deriving DecidableEq

/-- One session step: a skip leaves the tracker untouched. -/
def stepSession (s : FlashcardState) (tr : TrackerState) (a : SessionAction)
    (now : ℤ) : FlashcardState × TrackerState :=
  match a with
  | .skip => (handleSkip s, tr)
  | .review r => handleReview s tr r now

/-- Running a list of session actions in order, under a fixed clock. -/
def runSession (now : ℤ) :
    FlashcardState → TrackerState → List SessionAction →
      FlashcardState × TrackerState
  | s, tr, [] => (s, tr)
  | s, tr, a :: rest =>
    runSession now (stepSession s tr a now).1 (stepSession s tr a now).2 rest

/-- The number of review actions in a list. -/
def countReviews : List SessionAction → ℕ
  | [] => 0
  | .skip :: rest => countReviews rest
  | .review _ :: rest => 1 + countReviews rest

/-- The number of skip actions in a list. -/
def countSkips : List SessionAction → ℕ
  | [] => 0
  | .skip :: rest => 1 + countSkips rest
  | .review _ :: rest => countSkips rest

/-- A mastered review given at the last remaining position while at least
two cards remain makes FlashcardView step back to an already-presented
card; an action is good when it is not such a review. -/
def goodAction (s : FlashcardState) : SessionAction → Bool
  | .review .mastered =>
    s.remainingWords.length == 1 || s.currentIndex + 1 < s.remainingWords.length
  | _ => true

/-- Every action of the run is good in the state where it is taken. -/
def goodRun (now : ℤ) :
    FlashcardState → TrackerState → List SessionAction → Bool
  | _, _, [] => true
  | s, tr, a :: rest =>
    goodAction s a &&
      goodRun now (stepSession s tr a now).1 (stepSession s tr a now).2 rest

/- Concrete sample data used by the closed evaluation theorems. -/

/-- A tracked word with some review history. -/
def sampleWord1 : VocabularyWord :=
  { id := "vocab_hund_1"
    danishWord := "hund"
    englishTranslation := "dog"
    context := "Jeg har en hund."
    firstEncountered := 10
    lastPracticed := 100
    practiceCount := 4
    proficiencyLevel := .familiar
    srsData := { easeFactor := 2.5, interval := 10, repetitions := 4,
                 nextReviewDate := 500 } }

/-- A candidate for the same surface form as sampleWord1, differing only in
case, with the practiceCount 1 that extractAndAddVocabulary assigns. -/
def sampleCandidate : VocabularyCandidate :=
  { danishWord := "Hund"
    englishTranslation := "dog"
    context := "En stor Hund."
    firstEncountered := 900
    lastPracticed := 900
    practiceCount := 1
    proficiencyLevel := .new }

/-- A second candidate for the same form, fully upper case. -/
def sampleCandidate2 : VocabularyCandidate :=
  { danishWord := "HUND"
    englishTranslation := "dog"
    context := "HUND!"
    firstEncountered := 950
    lastPracticed := 950
    practiceCount := 1
    proficiencyLevel := .new }

/-- A word due early (next review at time 3). -/
def sampleWordEarly : VocabularyWord :=
  { id := "vocab_kat_2"
    danishWord := "kat"
    englishTranslation := "cat"
    context := "En kat."
    firstEncountered := 1
    lastPracticed := 1
    practiceCount := 1
    proficiencyLevel := .new
    srsData := { easeFactor := 2.5, interval := 1, repetitions := 0,
                 nextReviewDate := 3 } }

/-- A word due later (next review at time 5). -/
def sampleWordLate : VocabularyWord :=
  { id := "vocab_hus_3"
    danishWord := "hus"
    englishTranslation := "house"
    context := "Et hus."
    firstEncountered := 2
    lastPracticed := 2
    practiceCount := 1
    proficiencyLevel := .new
    srsData := { easeFactor := 2.5, interval := 1, repetitions := 0,
                 nextReviewDate := 5 } }

/-- Both branches of calculateNextReview bound the ease factor below by 1.3
through Math.max. -/
lemma easeFactor_floor_single (quality : ℚ) (currentSRS : SRSData) (now : ℤ) :
    (1.3 : ℚ) ≤ (calculateNextReview quality currentSRS now).easeFactor := by
  unfold calculateNextReview
  split
  · simp
  · simp

/-- C1: for every sequence of calculateNextReview calls, starting from any
schedule state, the easeFactor of every returned state is at least 1.3, for
every quality value in 0 through 5. -/
theorem ease_floor_invariant (qs : List ℚ) (currentSRS : SRSData) (now : ℤ)
    (hq : ∀ q ∈ qs, 0 ≤ q ∧ q ≤ 5) :
    ∀ r ∈ runReviews currentSRS now qs, (1.3 : ℚ) ≤ r.easeFactor := by
  induction qs generalizing currentSRS with
  | nil => intro r hr; simp [runReviews] at hr
  | cons q qs ih =>
    intro r hr
    simp only [runReviews, List.mem_cons] at hr
    rcases hr with h | h
    · subst h; exact easeFactor_floor_single q currentSRS now
    · exact ih _ (fun q' hq' => hq q' (List.mem_cons_of_mem _ hq')) r h

/-- Witness for C1 at a concrete two-review sequence. -/
theorem ease_floor_invariant_witness :
    (∀ q ∈ ([4, 2] : List ℚ), 0 ≤ q ∧ q ≤ 5) ∧
    ∀ r ∈ runReviews
        { easeFactor := 2.5, interval := 1, repetitions := 0, nextReviewDate := 0 }
        0 [4, 2], (1.3 : ℚ) ≤ r.easeFactor :=
  ⟨by norm_num, ease_floor_invariant [4, 2] _ 0 (by norm_num)⟩

/-- C2: for every quality below 3 and every current state, the result has
repetitions 0, interval 1, and easeFactor max(1.3, easeFactor - 0.2),
regardless of the prior state. -/
theorem failure_resets_progress (quality : ℚ) (currentSRS : SRSData) (now : ℤ)
    (h : quality < 3) :
    (calculateNextReview quality currentSRS now).repetitions = 0 ∧
    (calculateNextReview quality currentSRS now).interval = 1 ∧
    (calculateNextReview quality currentSRS now).easeFactor
      = max 1.3 (currentSRS.easeFactor - 0.2) := by
  unfold calculateNextReview
  rw [if_pos h]
  exact ⟨rfl, rfl, rfl⟩

/-- Witness for C2 at quality 0 from the repeated-failure scenario state. -/
theorem failure_resets_progress_witness :
    (0 : ℚ) < 3 ∧
    (calculateNextReview 0
        { easeFactor := 2, interval := 10, repetitions := 4, nextReviewDate := 0 }
        0).repetitions = 0 ∧
    (calculateNextReview 0
        { easeFactor := 2, interval := 10, repetitions := 4, nextReviewDate := 0 }
        0).interval = 1 ∧
    (calculateNextReview 0
        { easeFactor := 2, interval := 10, repetitions := 4, nextReviewDate := 0 }
        0).easeFactor
      = max 1.3
          ((2 : ℚ) - 0.2) :=
  ⟨by norm_num,
    failure_resets_progress 0
      { easeFactor := 2, interval := 10, repetitions := 4, nextReviewDate := 0 }
      0 (by norm_num)⟩

/-- C3 counterexample: calculateNextReview does not reject out-of-range
quality values; at quality 6 it computes an ordinary schedule state through
the success branch (and at quality -1 through the failure branch) instead of
raising any error. -/
theorem quality_out_of_range_not_rejected :
    (calculateNextReview 6
        { easeFactor := 2.5, interval := 1, repetitions := 0, nextReviewDate := 0 }
        0).repetitions = 1 ∧
    (calculateNextReview 6
        { easeFactor := 2.5, interval := 1, repetitions := 0, nextReviewDate := 0 }
        0).easeFactor = 2.66 ∧
    (calculateNextReview (-1)
        { easeFactor := 2.5, interval := 1, repetitions := 0, nextReviewDate := 0 }
        0).interval = 1 := by
  refine ⟨rfl, ?_, rfl⟩
  norm_num [calculateNextReview]

/-- C3 amended: calculateNextReview performs no range validation at all;
every quality above 5 is processed by the success branch with the usual
formulas, and every negative quality by the failure branch. -/
theorem no_range_validation (quality : ℚ) (currentSRS : SRSData) (now : ℤ) :
    (5 < quality →
      (calculateNextReview quality currentSRS now).repetitions
          = currentSRS.repetitions + 1 ∧
      (calculateNextReview quality currentSRS now).easeFactor
          = max 1.3 (currentSRS.easeFactor +
              (0.1 - (5 - quality) * (0.08 + (5 - quality) * 0.02)))) ∧
    (quality < 0 →
      (calculateNextReview quality currentSRS now).repetitions = 0 ∧
      (calculateNextReview quality currentSRS now).interval = 1) := by
  constructor
  · intro h
    have h3 : ¬ quality < 3 := by linarith
    unfold calculateNextReview
    rw [if_neg h3]
    exact ⟨rfl, rfl⟩
  · intro h
    have h3 : quality < 3 := by linarith
    unfold calculateNextReview
    rw [if_pos h3]
    exact ⟨rfl, rfl⟩

/-- Witness for the amended C3 at quality 6 and quality -1. -/
theorem no_range_validation_witness :
    ((5 : ℚ) < 6 ∧
      (calculateNextReview 6
          { easeFactor := 2.5, interval := 1, repetitions := 0, nextReviewDate := 0 }
          0).repetitions = 0 + 1 ∧
      (calculateNextReview 6
          { easeFactor := 2.5, interval := 1, repetitions := 0, nextReviewDate := 0 }
          0).easeFactor
        = max 1.3 ((2.5 : ℚ) + (0.1 - (5 - 6) * (0.08 + (5 - 6) * 0.02)))) ∧
    ((-1 : ℚ) < 0 ∧
      (calculateNextReview (-1)
          { easeFactor := 2.5, interval := 1, repetitions := 0, nextReviewDate := 0 }
          0).repetitions = 0 ∧
      (calculateNextReview (-1)
          { easeFactor := 2.5, interval := 1, repetitions := 0, nextReviewDate := 0 }
          0).interval = 1) :=
  ⟨⟨by norm_num,
      (no_range_validation 6
        { easeFactor := 2.5, interval := 1, repetitions := 0, nextReviewDate := 0 }
        0).1 (by norm_num)⟩,
    ⟨by norm_num,
      (no_range_validation (-1)
        { easeFactor := 2.5, interval := 1, repetitions := 0, nextReviewDate := 0 }
        0).2 (by norm_num)⟩⟩

/-- Mapping the updateWord merge function over a store in which no item
carries the target id leaves every item unchanged. -/
lemma map_id_of_no_match (id : String) (u : VocabUpdates) :
    ∀ (l : List VocabularyWord), (∀ w ∈ l, w.id ≠ id) →
      l.map (fun w => if w.id = id then applyUpdates w u else w) = l
  | [], _ => rfl
  | w :: ws, h => by
    have hw : w.id ≠ id := h w (List.mem_cons_self _ _)
    simp only [List.map_cons, if_neg hw, List.cons.injEq, true_and]
    exact map_id_of_no_match id u ws fun x hx => h x (List.mem_cons_of_mem _ hx)

/-- C5 counterexample: getWordsDueForReview returns the due items in store
order without sorting; with the later-due word stored first, the result is
not ascending in nextReviewDate. -/
theorem due_query_not_sorted :
    getWordsDueForReview [sampleWordLate, sampleWordEarly] 10
        = [sampleWordLate, sampleWordEarly] ∧
    ¬ List.Sorted dueOrder (getWordsDueForReview [sampleWordLate, sampleWordEarly] 10) := by
  have heq : getWordsDueForReview [sampleWordLate, sampleWordEarly] 10
      = [sampleWordLate, sampleWordEarly] := rfl
  refine ⟨heq, ?_⟩
  rw [heq]
  intro h
  have h2 : dueOrder sampleWordLate sampleWordEarly :=
    List.rel_of_sorted_cons h _ (List.mem_cons_self _ _)
  exact absurd h2 (by decide)

/-- C5 amended: for every store contents and query time, getDueWords returns
exactly the items with nextReviewDate at most the query time, sorted
ascending; getWordsDueForReview returns exactly those items but in store
order, with no sorting. -/
theorem due_query_amended (vocabulary : List VocabularyWord) (now : ℤ) :
    List.Perm (getDueWords vocabulary now)
        (vocabulary.filter (fun w => w.srsData.nextReviewDate ≤ now)) ∧
    List.Sorted dueOrder (getDueWords vocabulary now) ∧
    (∀ w, w ∈ getDueWords vocabulary now ↔
        w ∈ vocabulary ∧ w.srsData.nextReviewDate ≤ now) ∧
    (∀ w, w ∈ getWordsDueForReview vocabulary now ↔
        w ∈ vocabulary ∧ w.srsData.nextReviewDate ≤ now) := by
  refine ⟨List.perm_insertionSort dueOrder _,
    List.sorted_insertionSort dueOrder _, ?_, ?_⟩
  · intro w
    simp [getDueWords, List.mem_filter]
  · intro w
    simp [getWordsDueForReview, List.mem_filter]

/-- C6: evaluation at the failing input.  Reinforcing the already-tracked
word hund through addWord updates the in-memory collection but leaves the
persisted collection untouched, so the two disagree after the call. -/
theorem reinforcement_not_persisted :
    (addWord { vocabulary := [sampleWord1], stored := [sampleWord1] }
        sampleCandidate 2000).stored = [sampleWord1] ∧
    ((addWord { vocabulary := [sampleWord1], stored := [sampleWord1] }
        sampleCandidate 2000).vocabulary.map (fun w => w.practiceCount)) = [5] ∧
    ((addWord { vocabulary := [sampleWord1], stored := [sampleWord1] }
        sampleCandidate 2000).stored.map (fun w => w.practiceCount)) = [4] ∧
    (addWord { vocabulary := [sampleWord1], stored := [sampleWord1] }
        sampleCandidate 2000).vocabulary
      ≠ (addWord { vocabulary := [sampleWord1], stored := [sampleWord1] }
          sampleCandidate 2000).stored := by
  have hv : ((addWord { vocabulary := [sampleWord1], stored := [sampleWord1] }
      sampleCandidate 2000).vocabulary.map (fun w => w.practiceCount)) = [5] := rfl
  have hs : ((addWord { vocabulary := [sampleWord1], stored := [sampleWord1] }
      sampleCandidate 2000).stored.map (fun w => w.practiceCount)) = [4] := rfl
  refine ⟨rfl, hv, hs, fun h => ?_⟩
  have h2 := congrArg (List.map (fun w => w.practiceCount)) h
  rw [hv, hs] at h2
  exact absurd h2 (by decide)

/-- C7 counterexample: updateWord with an id absent from the store is a
silent no-op on the collection, returning the store unchanged rather than
failing with a NotFoundError. -/
theorem updateWord_unknown_id_no_error :
    updateWord { vocabulary := [sampleWord1], stored := [sampleWord1] }
        "missing-id" (fullUpdates sampleWordEarly)
      = { vocabulary := [sampleWord1], stored := [sampleWord1] } := by
  have hmap : ([sampleWord1].map (fun w =>
      if w.id = "missing-id" then applyUpdates w (fullUpdates sampleWordEarly)
      else w)) = [sampleWord1] :=
    map_id_of_no_match "missing-id" (fullUpdates sampleWordEarly) [sampleWord1]
      (by decide)
  simp [updateWord, hmap]

/-- C7 amended: for every id not present in the store, updateWord leaves the
collection unchanged (re-persisting it) and reports no error; for every
present word, updateWordWithReview computes the new schedule state through
calculateNextReview, reclassifies proficiency, increments practiceCount and
sets lastPracticed to the review time. -/
theorem review_update_path_amended :
    (∀ (tr : TrackerState) (id : String) (u : VocabUpdates),
      (∀ w ∈ tr.vocabulary, w.id ≠ id) →
      updateWord tr id u
        = { vocabulary := tr.vocabulary, stored := tr.vocabulary }) ∧
    (∀ (w : VocabularyWord) (q : ℚ) (now : ℤ),
      (updateWordWithReview w q now).srsData
          = (calculateNextReview q w.srsData now).toSRSData (some q) ∧
      (updateWordWithReview w q now).proficiencyLevel
          = calculateProficiencyLevel
              ((calculateNextReview q w.srsData now).toSRSData none) ∧
      (updateWordWithReview w q now).practiceCount = w.practiceCount + 1 ∧
      (updateWordWithReview w q now).lastPracticed = now) := by
  constructor
  · intro tr id u h
    simp [updateWord, map_id_of_no_match id u tr.vocabulary h]
  · intro w q now
    exact ⟨rfl, rfl, rfl, rfl⟩

/-- Witness for the amended C7 at a concrete store and review. -/
theorem review_update_path_amended_witness :
    (∀ w ∈ ({ vocabulary := [sampleWord1], stored := [] } : TrackerState).vocabulary,
        w.id ≠ "missing-id") ∧
    updateWord { vocabulary := [sampleWord1], stored := [] } "missing-id"
        (fullUpdates sampleWordEarly)
      = { vocabulary := [sampleWord1], stored := [sampleWord1] } ∧
    (updateWordWithReview sampleWord1 4 1000).practiceCount
      = sampleWord1.practiceCount + 1 ∧
    (updateWordWithReview sampleWord1 4 1000).lastPracticed = 1000 :=
  ⟨by decide,
    (review_update_path_amended.1
      { vocabulary := [sampleWord1], stored := [] } "missing-id"
      (fullUpdates sampleWordEarly) (by decide)),
    (review_update_path_amended.2 sampleWord1 4 1000).2.2.1,
    (review_update_path_amended.2 sampleWord1 4 1000).2.2.2⟩

/-- C9 counterexample: a mastered review through handleReview leaves
practiceCount at 4 and lastPracticed at 100 (the claim requires 5 and the
review time 1000), while still forcing the mastered proficiency level. -/
theorem mastered_does_not_touch_practice_fields :
    ((handleReview (initFlashcards [sampleWord1])
          { vocabulary := [sampleWord1], stored := [sampleWord1] }
          .mastered 1000).2.vocabulary.map
        (fun w => (w.practiceCount, w.lastPracticed, w.proficiencyLevel)))
      = [(4, 100, ProficiencyLevel.mastered)] := by
  decide

/-- C9 amended: reinforcement and the forgot and remembered review outcomes
increment practiceCount and refresh lastPracticed, but the mastered
override updates only proficiencyLevel and the schedule state (repetitions
plus one, next review a year out), leaving practiceCount and lastPracticed
unchanged. -/
theorem practice_metadata_amended :
    (∀ (w : VocabularyWord) (now : ℤ),
      (applyUpdates w (masteredUpdates w now)).practiceCount = w.practiceCount ∧
      (applyUpdates w (masteredUpdates w now)).lastPracticed = w.lastPracticed ∧
      (applyUpdates w (masteredUpdates w now)).proficiencyLevel = .mastered ∧
      (applyUpdates w (masteredUpdates w now)).srsData.repetitions
          = w.srsData.repetitions + 1 ∧
      (applyUpdates w (masteredUpdates w now)).srsData.nextReviewDate
          = now + 365 * 24 * 60 * 60 * 1000) ∧
    (∀ (w : VocabularyWord) (q : ℚ) (now : ℤ),
      (updateWordWithReview w q now).practiceCount = w.practiceCount + 1 ∧
      (updateWordWithReview w q now).lastPracticed = now) ∧
    (∀ (tr : TrackerState) (c : VocabularyCandidate) (now : ℤ)
        (w0 : VocabularyWord),
      tr.vocabulary.find?
          (fun w => jsToLowerCase w.danishWord == jsToLowerCase c.danishWord)
        = some w0 →
      (addWord tr c now).vocabulary = tr.vocabulary.map (fun w =>
        if w.id = w0.id then
          { w with practiceCount := w.practiceCount + 1, lastPracticed := now }
        else w)) := by
  refine ⟨fun w now => ⟨rfl, rfl, rfl, rfl, rfl⟩,
    fun w q now => ⟨rfl, rfl⟩, fun tr c now w0 hfind => ?_⟩
  unfold addWord
  rw [hfind]

/-- Witness for the amended C9 at concrete words and a concrete duplicate
encounter. -/
theorem practice_metadata_amended_witness :
    (applyUpdates sampleWord1 (masteredUpdates sampleWord1 1000)).practiceCount
        = sampleWord1.practiceCount ∧
    (updateWordWithReview sampleWord1 3 1000).practiceCount
        = sampleWord1.practiceCount + 1 ∧
    ([sampleWord1].find?
        (fun w => jsToLowerCase w.danishWord == jsToLowerCase sampleCandidate.danishWord)
      = some sampleWord1) ∧
    (addWord { vocabulary := [sampleWord1], stored := [sampleWord1] }
        sampleCandidate 2000).vocabulary
      = [sampleWord1].map (fun w =>
          if w.id = sampleWord1.id then
            { w with practiceCount := w.practiceCount + 1,
                     lastPracticed := 2000 }
          else w) :=
  ⟨(practice_metadata_amended.1 sampleWord1 1000).1,
    (practice_metadata_amended.2.1 sampleWord1 3 1000).1,
    rfl,
    practice_metadata_amended.2.2
      { vocabulary := [sampleWord1], stored := [sampleWord1] }
      sampleCandidate 2000 sampleWord1 rfl⟩

/-- C10: for every word, quality and clock, the Partial written by
reviewWord carries a schedule state recomputed by calculateNextReview from
the fixed initial state easeFactor 2.5, interval 1, repetitions 0 —
independent of the word it is applied to — together with practiceCount 0;
the proficiency level is not reclassified. -/
theorem reviewWord_resets_schedule_state (w : VocabularyWord)
    (review : SRSReview) (now : ℤ) :
    (applyUpdates w (reviewWordUpdates review now)).practiceCount = 0 ∧
    (applyUpdates w (reviewWordUpdates review now)).lastPracticed = now ∧
    (applyUpdates w (reviewWordUpdates review now)).srsData
        = (calculateNextReview review.quality
            { easeFactor := 2.5, interval := 1, repetitions := 0,
              nextReviewDate := now }
            now).toSRSData (some review.quality) ∧
    (applyUpdates w (reviewWordUpdates review now)).proficiencyLevel
        = w.proficiencyLevel :=
  ⟨rfl, rfl, rfl, rfl⟩

/-- find? on a list whose only matching element is the final one returns
that element. -/
lemma find?_append_single {p : VocabularyWord → Bool} :
    ∀ (old : List VocabularyWord) (t : VocabularyWord),
      (∀ w ∈ old, p w = false) → p t = true →
      List.find? p (old ++ [t]) = some t
  | [], t, _, ht => by simp [ht]
  | w :: old, t, h, ht => by
    have hw : p w = false := h w (List.mem_cons_self _ _)
    rw [List.cons_append, List.find?_cons_of_neg _ (by simp [hw])]
    exact find?_append_single old t
      (fun x hx => h x (List.mem_cons_of_mem _ hx)) ht

/-- Through any further sequence of addWord calls for the same
case-insensitive surface form, the store keeps the shape: items that do not
match the form, followed by the single matching item, whose practiceCount
grows by one per call. -/
lemma addWords_keep_single (form : String) :
    ∀ (calls : List (VocabularyCandidate × ℤ)) (old : List VocabularyWord)
      (t : VocabularyWord) (st : List VocabularyWord),
      (∀ p ∈ calls, jsToLowerCase p.1.danishWord = form) →
      (∀ w ∈ old, (jsToLowerCase w.danishWord == form) = false) →
      jsToLowerCase t.danishWord = form →
      ∃ old2 t2,
        (addWords { vocabulary := old ++ [t], stored := st } calls).vocabulary
            = old2 ++ [t2] ∧
        (∀ w ∈ old2, (jsToLowerCase w.danishWord == form) = false) ∧
        jsToLowerCase t2.danishWord = form ∧
        t2.practiceCount = t.practiceCount + calls.length
  | [], old, t, st, _, hold, ht => ⟨old, t, rfl, hold, ht, by simp⟩
  | (c, tm) :: rest, old, t, st, hcalls, hold, ht => by
    have hc : jsToLowerCase c.danishWord = form :=
      hcalls (c, tm) (List.mem_cons_self _ _)
    have hfind : (old ++ [t]).find?
        (fun w => jsToLowerCase w.danishWord == jsToLowerCase c.danishWord)
          = some t := by
      simp only [hc]
      exact find?_append_single old t hold (by simp [ht])
    have hstep : addWord { vocabulary := old ++ [t], stored := st } c tm
        = { vocabulary := (old ++ [t]).map (fun w =>
              if w.id = t.id then
                { w with practiceCount := w.practiceCount + 1,
                         lastPracticed := tm }
              else w),
            stored := st } := by
      simp only [addWord, hfind]
    have hmapped : ((old ++ [t]).map (fun w =>
        if w.id = t.id then
          { w with practiceCount := w.practiceCount + 1, lastPracticed := tm }
        else w))
        = (old.map (fun w =>
            if w.id = t.id then
              { w with practiceCount := w.practiceCount + 1,
                       lastPracticed := tm }
            else w))
          ++ [{ t with practiceCount := t.practiceCount + 1,
                       lastPracticed := tm }] := by
      rw [List.map_append, List.map_cons, List.map_nil, if_pos rfl]
    have hold2 : ∀ w ∈ old.map (fun w =>
        if w.id = t.id then
          { w with practiceCount := w.practiceCount + 1, lastPracticed := tm }
        else w), (jsToLowerCase w.danishWord == form) = false := by
      intro w hw
      obtain ⟨x, hx, hxe⟩ := List.mem_map.mp hw
      have hdw : w.danishWord = x.danishWord := by
        subst hxe
        split <;> rfl
      rw [hdw]
      exact hold x hx
    obtain ⟨old2, t2, hrun, h2, h3, h4⟩ :=
      addWords_keep_single form rest
        (old.map (fun w =>
          if w.id = t.id then
            { w with practiceCount := w.practiceCount + 1,
                     lastPracticed := tm }
          else w))
        { t with practiceCount := t.practiceCount + 1, lastPracticed := tm }
        st
        (fun p hp => hcalls p (List.mem_cons_of_mem _ hp))
        hold2 ht
    refine ⟨old2, t2, ?_, h2, h3, ?_⟩
    · show (addWords (addWord { vocabulary := old ++ [t], stored := st } c tm)
          rest).vocabulary = old2 ++ [t2]
      rw [hstep, hmapped]
      exact hrun
    · rw [h4]
      simp only [List.length_cons]
      push_cast
      ring

/-- C4: starting from a store holding no item for the given
case-insensitive surface form, a first addWord call with a candidate of
that form carrying the practiceCount 1 that extraction assigns, followed by
any further addWord calls whose candidates have the same lowercased form,
leaves exactly one matching item in the store, and its practiceCount equals
the number of calls. -/
theorem dedup_invariant (form : String) (c0 : VocabularyCandidate) (t0 : ℤ)
    (rest : List (VocabularyCandidate × ℤ)) (tr : TrackerState)
    (hc0 : jsToLowerCase c0.danishWord = form)
    (hrest : ∀ p ∈ rest, jsToLowerCase p.1.danishWord = form)
    (hinit : ∀ w ∈ tr.vocabulary, (jsToLowerCase w.danishWord == form) = false)
    (hpc : c0.practiceCount = 1) :
    ((addWords tr ((c0, t0) :: rest)).vocabulary.filter
        (fun w => jsToLowerCase w.danishWord == form)).map
      (fun w => w.practiceCount) = [1 + (rest.length : ℤ)] := by
  have hfindnone : tr.vocabulary.find?
      (fun w => jsToLowerCase w.danishWord == jsToLowerCase c0.danishWord)
        = none := by
    simp only [hc0]
    rw [List.find?_eq_none]
    intro w hw
    simp [hinit w hw]
  have haddw : addWord tr c0 t0
      = { vocabulary := tr.vocabulary ++ [mkNewWord c0 t0],
          stored := tr.vocabulary ++ [mkNewWord c0 t0] } := by
    simp only [addWord, hfindnone]
  have htform : jsToLowerCase (mkNewWord c0 t0).danishWord = form := hc0
  obtain ⟨old2, t2, hrun, h2, h3, h4⟩ :=
    addWords_keep_single form rest tr.vocabulary (mkNewWord c0 t0)
      (tr.vocabulary ++ [mkNewWord c0 t0]) hrest hinit htform
  have hru : (addWords tr ((c0, t0) :: rest)).vocabulary = old2 ++ [t2] := by
    show (addWords (addWord tr c0 t0) rest).vocabulary = old2 ++ [t2]
    rw [haddw]
    exact hrun
  rw [hru, List.filter_append]
  have hf1 : old2.filter (fun w => jsToLowerCase w.danishWord == form) = [] := by
    rw [List.filter_eq_nil_iff]
    intro w hw
    simp [h2 w hw]
  have hf2 : ([t2].filter (fun w => jsToLowerCase w.danishWord == form)) = [t2] := by
    simp [List.filter, h3]
  rw [hf1, hf2, List.nil_append, List.map_cons, List.map_nil]
  have : t2.practiceCount = 1 + (rest.length : ℤ) := by
    rw [h4]
    have : (mkNewWord c0 t0).practiceCount = c0.practiceCount := rfl
    rw [this, hpc]
  rw [this]

/-- Witness for C4: two reinforcing calls for the form hund after the
creating call leave one item with practiceCount 2. -/
theorem dedup_invariant_witness :
    jsToLowerCase sampleCandidate.danishWord = "hund" ∧
    (∀ p ∈ ([(sampleCandidate2, 3000)] : List (VocabularyCandidate × ℤ)),
        jsToLowerCase p.1.danishWord = "hund") ∧
    (∀ w ∈ ({ vocabulary := [], stored := [] } : TrackerState).vocabulary,
        (jsToLowerCase w.danishWord == "hund") = false) ∧
    sampleCandidate.practiceCount = 1 ∧
    ((addWords { vocabulary := [], stored := [] }
        ((sampleCandidate, 2000) :: [(sampleCandidate2, 3000)])).vocabulary.filter
          (fun w => jsToLowerCase w.danishWord == "hund")).map
        (fun w => w.practiceCount)
      = [1 + (([(sampleCandidate2, 3000)] : List (VocabularyCandidate × ℤ)).length : ℤ)] :=
  ⟨rfl, by decide, by simp, rfl,
    dedup_invariant "hund" sampleCandidate 2000 [(sampleCandidate2, 3000)]
      { vocabulary := [], stored := [] } rfl (by decide) (by simp) rfl⟩

/-- The computed-key bucket update never touches totalReviewed. -/
lemma bumpOutcome_totalReviewed (st : ReviewStats) (r : ReviewResult) :
    (bumpOutcome st r).totalReviewed = st.totalReviewed := by
  cases r <;> rfl

/-- countReviews splits off the head action. -/
lemma countReviews_cons (a : SessionAction) (rest : List SessionAction) :
    countReviews (a :: rest) = countReviews [a] + countReviews rest := by
  cases a with
  | skip => simp [countReviews]
  | review r => simp [countReviews]

/-- Review and skip counts partition the action list. -/
lemma countReviews_add_countSkips : ∀ acts : List SessionAction,
    countReviews acts + countSkips acts = acts.length
  | [] => rfl
  | .skip :: rest => by
    simp only [countReviews, countSkips, List.length_cons]
    have := countReviews_add_countSkips rest
    omega
  | .review r :: rest => by
    simp only [countReviews, countSkips, List.length_cons]
    have := countReviews_add_countSkips rest
    omega

/-- Effect of one good session step on the summary flag, the pending count
(cards from the current position to the end) and totalReviewed: while more
than one card is pending the step decreases the pending count by one and
does not complete the session; with exactly one pending card it completes
it. -/
lemma stepSession_good_spec (s : FlashcardState) (tr : TrackerState)
    (a : SessionAction) (now : ℤ)
    (h0 : s.showSummary = false)
    (h1 : s.currentIndex < s.remainingWords.length)
    (hg : goodAction s a = true) :
    (stepSession s tr a now).1.stats.totalReviewed
        = s.stats.totalReviewed + countReviews [a] ∧
    (s.remainingWords.length - s.currentIndex = 1 →
        (stepSession s tr a now).1.showSummary = true) ∧
    (1 < s.remainingWords.length - s.currentIndex →
        (stepSession s tr a now).1.showSummary = false ∧
        (stepSession s tr a now).1.currentIndex
            < (stepSession s tr a now).1.remainingWords.length ∧
        (stepSession s tr a now).1.remainingWords.length
            - (stepSession s tr a now).1.currentIndex
          = s.remainingWords.length - s.currentIndex - 1) := by
  obtain ⟨w, hw⟩ : ∃ w, s.remainingWords[s.currentIndex]? = some w :=
    ⟨_, List.getElem?_eq_getElem h1⟩
  cases a with
  | skip =>
    by_cases hcond : s.currentIndex < s.remainingWords.length - 1
    · refine ⟨by simp [stepSession, handleSkip, hcond, countReviews],
        fun hpend => absurd hpend (by omega), fun hpend => ?_⟩
      refine ⟨?_, ?_, ?_⟩ <;>
        simp [stepSession, handleSkip, hcond, h0] <;> omega
    · refine ⟨by simp [stepSession, handleSkip, hcond, countReviews],
        fun _ => by simp [stepSession, handleSkip, hcond],
        fun hpend => absurd hpend (by omega)⟩
  | review r =>
    cases r with
    | forgot =>
      by_cases hcond : s.currentIndex < s.remainingWords.length - 1
      · refine ⟨by simp [stepSession, handleReview, hw, hcond, bumpOutcome,
            countReviews],
          fun hpend => absurd hpend (by omega), fun hpend => ?_⟩
        refine ⟨?_, ?_, ?_⟩ <;>
          simp [stepSession, handleReview, hw, hcond, h0] <;> omega
      · refine ⟨by simp [stepSession, handleReview, hw, hcond, bumpOutcome,
            countReviews],
          fun _ => by simp [stepSession, handleReview, hw, hcond],
          fun hpend => absurd hpend (by omega)⟩
    | remembered =>
      by_cases hcond : s.currentIndex < s.remainingWords.length - 1
      · refine ⟨by simp [stepSession, handleReview, hw, hcond, bumpOutcome,
            countReviews],
          fun hpend => absurd hpend (by omega), fun hpend => ?_⟩
        refine ⟨?_, ?_, ?_⟩ <;>
          simp [stepSession, handleReview, hw, hcond, h0] <;> omega
      · refine ⟨by simp [stepSession, handleReview, hw, hcond, bumpOutcome,
            countReviews],
          fun _ => by simp [stepSession, handleReview, hw, hcond],
          fun hpend => absurd hpend (by omega)⟩
    | mastered =>
      simp only [goodAction, Bool.or_eq_true, beq_iff_eq,
        decide_eq_true_eq] at hg
      have hlen := List.length_eraseIdx_of_lt h1
      by_cases hA : (s.remainingWords.eraseIdx s.currentIndex).length = 0
      · refine ⟨by simp [stepSession, handleReview, hw, hA, bumpOutcome,
            countReviews],
          fun _ => by simp [stepSession, handleReview, hw, hA],
          fun hpend => absurd hpend (by omega)⟩
      · by_cases hB : (s.remainingWords.eraseIdx s.currentIndex).length
            ≤ s.currentIndex
        · exfalso
          rcases hg with h | h <;> omega
        · refine ⟨by simp [stepSession, handleReview, hw, hA, hB, bumpOutcome,
              countReviews],
            fun hpend => absurd hpend (by omega), fun hpend => ?_⟩
          refine ⟨?_, ?_, ?_⟩ <;>
            simp [stepSession, handleReview, hw, hA, hB, h0] <;> omega

/-- Running fewer good actions than there are pending cards never completes
the session; the pending count decreases by exactly the number of actions
and totalReviewed grows by the number of review actions. -/
lemma runSession_not_complete (now : ℤ) :
    ∀ (acts : List SessionAction) (s : FlashcardState) (tr : TrackerState),
      s.showSummary = false →
      s.currentIndex < s.remainingWords.length →
      goodRun now s tr acts = true →
      acts.length < s.remainingWords.length - s.currentIndex →
      (runSession now s tr acts).1.showSummary = false ∧
      (runSession now s tr acts).1.currentIndex
          < (runSession now s tr acts).1.remainingWords.length ∧
      (runSession now s tr acts).1.remainingWords.length
          - (runSession now s tr acts).1.currentIndex
        = s.remainingWords.length - s.currentIndex - acts.length ∧
      (runSession now s tr acts).1.stats.totalReviewed
        = s.stats.totalReviewed + countReviews acts := by
  intro acts
  induction acts with
  | nil =>
    intro s tr h0 h1 _ _
    exact ⟨h0, h1, by simp [runSession], by simp [runSession, countReviews]⟩
  | cons a rest ih =>
    intro s tr h0 h1 hgood hlen
    simp only [goodRun, Bool.and_eq_true] at hgood
    obtain ⟨hga, hgrest⟩ := hgood
    have hstep := stepSession_good_spec s tr a now h0 h1 hga
    obtain ⟨htot, -, hstep3⟩ := hstep
    have hpend2 : 1 < s.remainingWords.length - s.currentIndex := by
      simp only [List.length_cons] at hlen
      omega
    obtain ⟨hs0, hs1, hs2⟩ := hstep3 hpend2
    have ihres := ih (stepSession s tr a now).1 (stepSession s tr a now).2
      hs0 hs1 hgrest (by simp only [List.length_cons] at hlen; omega)
    obtain ⟨i1, i2, i3, i4⟩ := ihres
    refine ⟨i1, i2, ?_, ?_⟩
    · show (runSession now (stepSession s tr a now).1
          (stepSession s tr a now).2 rest).1.remainingWords.length
        - (runSession now (stepSession s tr a now).1
          (stepSession s tr a now).2 rest).1.currentIndex
        = s.remainingWords.length - s.currentIndex - (a :: rest).length
      simp only [List.length_cons]
      omega
    · show (runSession now (stepSession s tr a now).1
          (stepSession s tr a now).2 rest).1.stats.totalReviewed
        = s.stats.totalReviewed + countReviews (a :: rest)
      have hc := countReviews_cons a rest
      omega

/-- Running exactly as many good actions as there are pending cards
completes the session, with totalReviewed grown by the number of review
actions. -/
lemma runSession_completes (now : ℤ) :
    ∀ (acts : List SessionAction) (s : FlashcardState) (tr : TrackerState),
      s.showSummary = false →
      s.currentIndex < s.remainingWords.length →
      goodRun now s tr acts = true →
      acts.length = s.remainingWords.length - s.currentIndex →
      (runSession now s tr acts).1.showSummary = true ∧
      (runSession now s tr acts).1.stats.totalReviewed
        = s.stats.totalReviewed + countReviews acts := by
  intro acts
  induction acts with
  | nil =>
    intro s tr _ h1 _ hlen
    exfalso
    simp only [List.length_nil] at hlen
    omega
  | cons a rest ih =>
    intro s tr h0 h1 hgood hlen
    simp only [goodRun, Bool.and_eq_true] at hgood
    obtain ⟨hga, hgrest⟩ := hgood
    have hstep := stepSession_good_spec s tr a now h0 h1 hga
    obtain ⟨htot, hdone, hstep3⟩ := hstep
    simp only [List.length_cons] at hlen
    by_cases hp : s.remainingWords.length - s.currentIndex = 1
    · have hrest0 : rest = [] := by
        have : rest.length = 0 := by omega
        exact List.length_eq_zero.mp this
      subst hrest0
      refine ⟨hdone hp, ?_⟩
      show (stepSession s tr a now).1.stats.totalReviewed
          = s.stats.totalReviewed + countReviews [a]
      exact htot
    · obtain ⟨hs0, hs1, hs2⟩ := hstep3 (by omega)
      have ihres := ih (stepSession s tr a now).1 (stepSession s tr a now).2
        hs0 hs1 hgrest (by omega)
      refine ⟨ihres.1, ?_⟩
      show (runSession now (stepSession s tr a now).1
          (stepSession s tr a now).2 rest).1.stats.totalReviewed
        = s.stats.totalReviewed + countReviews (a :: rest)
      have hi := ihres.2
      have hc := countReviews_cons a rest
      omega

/-- A prefix of a good run is a good run. -/
lemma goodRun_take (now : ℤ) :
    ∀ (acts : List SessionAction) (k : ℕ) (s : FlashcardState)
      (tr : TrackerState),
      goodRun now s tr acts = true → goodRun now s tr (acts.take k) = true := by
  intro acts
  induction acts with
  | nil =>
    intro k s tr h
    simpa [List.take_nil] using h
  | cons a rest ih =>
    intro k s tr h
    cases k with
    | zero => rfl
    | succ k =>
      simp only [List.take_succ_cons]
      simp only [goodRun, Bool.and_eq_true] at h ⊢
      exact ⟨h.1, ih k _ _ h.2⟩

/-- C8 counterexample: a session over two items is not complete after two
review calls when the second outcome is mastered at the last position; the
deck shrinks and FlashcardView steps back to the already-reviewed first
card (currentIndex 0), so a third call is needed. -/
theorem session_completeness_counterexample :
    (runSession 0 (initFlashcards [sampleWordEarly, sampleWordLate])
        { vocabulary := [sampleWordEarly, sampleWordLate],
          stored := [sampleWordEarly, sampleWordLate] }
        [.review .remembered, .review .mastered]).1.showSummary = false ∧
    (runSession 0 (initFlashcards [sampleWordEarly, sampleWordLate])
        { vocabulary := [sampleWordEarly, sampleWordLate],
          stored := [sampleWordEarly, sampleWordLate] }
        [.review .remembered, .review .mastered]).1.currentIndex = 0 := by
  constructor
  · decide
  · decide

/-- C8 amended: for a session over N at least 1 items, any N review/skip
calls complete the session — N - 1 of them never suffice — and the final
totalReviewed plus the number of skip calls equals N, provided no mastered
review is given at the last remaining position while at least two cards
remain (such a call steps back to an earlier card and the session then
needs more than N calls). -/
theorem session_completeness_amended (vocabulary : List VocabularyWord)
    (tr : TrackerState) (now : ℤ) (acts : List SessionAction)
    (hpos : 0 < vocabulary.length)
    (hN : acts.length = vocabulary.length)
    (hgood : goodRun now (initFlashcards vocabulary) tr acts = true) :
    (runSession now (initFlashcards vocabulary) tr
        (acts.take (acts.length - 1))).1.showSummary = false ∧
    (runSession now (initFlashcards vocabulary) tr acts).1.showSummary = true ∧
    (runSession now (initFlashcards vocabulary) tr acts).1.stats.totalReviewed
        + countSkips acts = vocabulary.length := by
  have h0 : (initFlashcards vocabulary).showSummary = false := rfl
  have h1 : (initFlashcards vocabulary).currentIndex
      < (initFlashcards vocabulary).remainingWords.length := by
    simpa [initFlashcards] using hpos
  have hpend : (initFlashcards vocabulary).remainingWords.length
      - (initFlashcards vocabulary).currentIndex = vocabulary.length := by
    simp [initFlashcards]
  refine ⟨?_, ?_, ?_⟩
  · have htake := goodRun_take now acts (acts.length - 1)
      (initFlashcards vocabulary) tr hgood
    have hlt : (acts.take (acts.length - 1)).length
        < (initFlashcards vocabulary).remainingWords.length
          - (initFlashcards vocabulary).currentIndex := by
      rw [hpend]
      simp only [List.length_take]
      omega
    exact (runSession_not_complete now (acts.take (acts.length - 1))
      (initFlashcards vocabulary) tr h0 h1 htake hlt).1
  · exact (runSession_completes now acts (initFlashcards vocabulary) tr
      h0 h1 hgood (by rw [hpend]; exact hN)).1
  · have hc := (runSession_completes now acts (initFlashcards vocabulary) tr
      h0 h1 hgood (by rw [hpend]; exact hN)).2
    have h00 : (initFlashcards vocabulary).stats.totalReviewed = 0 := rfl
    have hsum := countReviews_add_countSkips acts
    omega

/-- Witness for the amended C8: a remembered review followed by a skip
completes a two-item session in exactly two calls, with one skip never
sufficing and totalReviewed 1 plus 1 skip accounting for both items. -/
theorem session_completeness_amended_witness :
    0 < ([sampleWordEarly, sampleWordLate] : List VocabularyWord).length ∧
    ([SessionAction.review .remembered, SessionAction.skip] :
        List SessionAction).length
      = ([sampleWordEarly, sampleWordLate] : List VocabularyWord).length ∧
    goodRun 0 (initFlashcards [sampleWordEarly, sampleWordLate])
        { vocabulary := [sampleWordEarly, sampleWordLate],
          stored := [sampleWordEarly, sampleWordLate] }
        [SessionAction.review .remembered, SessionAction.skip] = true ∧
    ((runSession 0 (initFlashcards [sampleWordEarly, sampleWordLate])
        { vocabulary := [sampleWordEarly, sampleWordLate],
          stored := [sampleWordEarly, sampleWordLate] }
        (([SessionAction.review .remembered, SessionAction.skip] :
            List SessionAction).take
          (([SessionAction.review .remembered, SessionAction.skip] :
              List SessionAction).length - 1))).1.showSummary = false ∧
      (runSession 0 (initFlashcards [sampleWordEarly, sampleWordLate])
        { vocabulary := [sampleWordEarly, sampleWordLate],
          stored := [sampleWordEarly, sampleWordLate] }
        [SessionAction.review .remembered, SessionAction.skip]).1.showSummary
        = true ∧
      (runSession 0 (initFlashcards [sampleWordEarly, sampleWordLate])
        { vocabulary := [sampleWordEarly, sampleWordLate],
          stored := [sampleWordEarly, sampleWordLate] }
        [SessionAction.review .remembered,
          SessionAction.skip]).1.stats.totalReviewed
        + countSkips [SessionAction.review .remembered, SessionAction.skip]
      = ([sampleWordEarly, sampleWordLate] : List VocabularyWord).length) :=
  ⟨by decide, by decide, by decide,
    session_completeness_amended [sampleWordEarly, sampleWordLate]
      { vocabulary := [sampleWordEarly, sampleWordLate],
        stored := [sampleWordEarly, sampleWordLate] }
      0 [SessionAction.review .remembered, SessionAction.skip]
      (by decide) (by decide) (by decide)⟩

end LearnDanish
